import Mathlib

/-!
Shallow embedding of `pkg/oauth/api/validation/validation.go` (OAuth object
validation) and proofs about it.

External collaborators (Kubernetes object-metadata validation, the generic
immutable-field diff, service-account/user/DNS name checks, `url.Parse`, the
minimal-name-requirements check and the scope-evaluator registry, none of
which live in this package) are passed in as explicit function parameters,
bundled in the `Externals` structure, mirroring how the Go code consumes them
as black boxes.  Go byte lengths (`len(s)`) are modelled with
`String.utf8ByteSize`; rune iteration (`for _, ch := range s`) with
`String.data`.
-/

namespace OAuthValidation

/-- Path segment of a field path: either a named field or a list index,
mirroring `k8s.io/.../field.Path` built via `NewPath`, `Child` and `Index`. -/
inductive PathSeg
  | key : String → PathSeg
  | idx : Nat → PathSeg
deriving DecidableEq, Repr

/-- A field path is the sequence of its segments. -/
abbrev FieldPath := List PathSeg

/-- Kind of a field error, mirroring the `field.Required`, `field.Invalid`
and `field.NotSupported` constructors used in the source. -/
inductive ErrKind
  | required
  | invalid
  | notSupported
deriving DecidableEq, Repr

/-- Structured validation error: kind, field path, offending value (rendered
as a string; non-string offending values such as whole objects are rendered
as `""`), detail message, and for `notSupported` the list of supported
values. -/
structure FieldError where
  kind : ErrKind
  path : FieldPath
  badValue : String
  detail : String
  supported : List String
deriving DecidableEq, Repr

/-- `field.Required(path, detail)`. -/
def fieldRequired (p : FieldPath) (detail : String) : FieldError :=
  ⟨ErrKind.required, p, "", detail, []⟩

/-- `field.Invalid(path, value, detail)` with the offending value rendered
as a string. -/
def fieldInvalid (p : FieldPath) (value : String) (detail : String) : FieldError :=
  ⟨ErrKind.invalid, p, value, detail, []⟩

/-- `field.NotSupported(path, value, supportedValues)`. -/
def fieldNotSupported (p : FieldPath) (value : String) (supp : List String) : FieldError :=
  ⟨ErrKind.notSupported, p, value, "", supp⟩

/-- `field.NewPath(keys...)`. -/
def newPath (ks : List String) : FieldPath := ks.map PathSeg.key

/-- `path.Index(i)`. -/
def pathIndex (p : FieldPath) (i : Nat) : FieldPath := p ++ [PathSeg.idx i]

/-- `path.Child(keys...)`. -/
def pathChild (p : FieldPath) (ks : List String) : FieldPath := p ++ ks.map PathSeg.key

/-- Go `len(s)` on a string counts bytes. -/
def goLen (s : String) : Nat := s.utf8ByteSize

/-- `const MinTokenLength = 32`. -/
def MinTokenLength : Nat := 32

/-- `codeChallengeMethodPlain`. -/
def codeChallengeMethodPlain : String := "plain"

/-- `codeChallengeMethodSHA256`. -/
def codeChallengeMethodSHA256 : String := "S256"

/-- `CodeChallengeMethodsSupported = []string{plain, S256}`. -/
def CodeChallengeMethodsSupported : List String :=
  [codeChallengeMethodPlain, codeChallengeMethodSHA256]

/-- `ValidateTokenName`: delegate to the (external) minimal-name-requirements
check, returning its reasons if any; otherwise require at least
`MinTokenLength` bytes. -/
def ValidateTokenName (minimalNameRequirements : String → Bool → List String)
    (name : String) (pfx : Bool) : List String :=
  let reasons := minimalNameRequirements name pfx
  if reasons.length ≠ 0 then reasons
  else if goLen name < MinTokenLength then
    ["must be at least 32 characters long"]
  else []

/-- Result of `url.Parse` as consumed by this package: the only fields the
source reads are `u.Path` and `u.Fragment`. -/
structure ParsedURL where
  path : String
  fragment : String
deriving DecidableEq, Repr

/-- Helper for `goSplitSlash`: accumulate the current segment (reversed). -/
def splitSlashAux : List Char → List Char → List String
  | [], acc => [String.mk acc.reverse]
  | c :: rest, acc =>
    if c = '/' then String.mk acc.reverse :: splitSlashAux rest []
    else splitSlashAux rest (c :: acc)

/-- Go `strings.Split(s, "/")`: the segments of `s` between `/` occurrences
(`""` yields `[""]`, a leading or trailing `/` yields an empty segment). -/
def goSplitSlash (s : String) : List String := splitSlashAux s.data []

/-- The segment loop of `ValidateRedirectURI`:
`for _, s := range strings.Split(u.Path, "/")`, rejecting `.` and `..`. -/
def redirectPathSegCheck : List String → Bool × String
  | [] => (true, "")
  | s :: rest =>
    if s = "." then (false, "may not contain a path segment of .")
    else if s = ".." then (false, "may not contain a path segment of ..")
    else redirectPathSegCheck rest

/-- `ValidateRedirectURI`, parameterised by the external `url.Parse`
(`Except.error` models a parse error; `err.Error()` is the carried string). -/
def ValidateRedirectURI (parseURL : String → Except String ParsedURL)
    (redirect : String) : Bool × String :=
  if goLen redirect = 0 then (true, "")
  else
    match parseURL redirect with
    | Except.error e => (false, e)
    | Except.ok u =>
      if goLen u.fragment ≠ 0 then (false, "may not contain a fragment")
      else redirectPathSegCheck (goSplitSlash u.path)

/-- `ValidateClientAuthorizationName`'s colon search: `strings.Index(name, ":")`
returns the byte index of the first colon, or `-1`. -/
def goIndexColon : List Char → Nat → Int
  | [], _ => -1
  | c :: rest, acc => if c = ':' then (acc : Int) else goIndexColon rest (acc + c.utf8Size)

/-- `ValidateClientAuthorizationName`: delegate to the minimal-name check,
then require a colon that is neither the first nor the last character. -/
def ValidateClientAuthorizationName (minimalNameRequirements : String → Bool → List String)
    (name : String) (pfx : Bool) : List String :=
  let reasons := minimalNameRequirements name pfx
  if reasons.length ≠ 0 then reasons
  else
    let lastColon := goIndexColon name.data 0
    if lastColon ≤ 0 ∨ lastColon ≥ (goLen name : Int) - 1 then
      ["must be in the format <userName>:<clientName>"]
    else []

/-- A registered scope evaluator: the `{Handles, Validate}` capability pair.
`validate` returns `some msg` for an error (Go `error` with `err.Error() = msg`)
and `none` for success. -/
structure ScopeEvaluator where
  handles : String → Bool
  validate : String → Option String

/-- Legality of one scope character, from the `switch` in `ValidateScopes`:
`!` (0x21), `#`..`[` (0x23-0x5B) or `]`..`~` (0x5D-0x7E). -/
def legalScopeChar (c : Char) : Bool :=
  c = '!' || ('#'.toNat ≤ c.toNat && c.toNat ≤ '['.toNat)
    || (']'.toNat ≤ c.toNat && c.toNat ≤ '~'.toNat)

/-- The character-screening stage of `ValidateScopes` for one scope: one
`Invalid` error per violating rune.  Go renders the rune with `%v`, which
prints its integer code point. -/
def scopeCharErrors (p : FieldPath) (i : Nat) (scope : String) : List FieldError :=
  (scope.data.filter (fun c => !legalScopeChar c)).map
    (fun c => fieldInvalid (pathIndex p i) scope (toString c.toNat ++ " not allowed"))

/-- The evaluator-dispatch loop of `ValidateScopes` for one scope.  The `found`
flag mirrors the Go local of the same name; the loop `break`s only when a
handling evaluator's `Validate` returns an error, and a missing handler is
reported after the loop. -/
def scopeEvaluatorDispatch (p : FieldPath) (i : Nat) (scope : String) :
    List ScopeEvaluator → Bool → List FieldError
  | [], found =>
    if found then [] else [fieldInvalid (pathIndex p i) scope "no scope handler found"]
  | ev :: rest, found =>
    if ev.handles scope then
      match ev.validate scope with
      | some msg => [fieldInvalid (pathIndex p i) scope msg]
      | none => scopeEvaluatorDispatch p i scope rest true
    else scopeEvaluatorDispatch p i scope rest found

/-- The outer loop of `ValidateScopes`, carrying the index of the current
scope: character screening first; a scope with any illegal character is
`continue`d past dispatch; otherwise evaluator dispatch runs. -/
def validateScopesFrom (evals : List ScopeEvaluator) (p : FieldPath) :
    Nat → List String → List FieldError
  | _, [] => []
  | i, scope :: rest =>
    (if (scopeCharErrors p i scope).isEmpty then scopeEvaluatorDispatch p i scope evals false
     else scopeCharErrors p i scope)
      ++ validateScopesFrom evals p (i + 1) rest

/-- `ValidateScopes(scopes, fldPath)`, parameterised by the registered
evaluator list (`authorizerscopes.ScopeEvaluators` in the source). -/
def ValidateScopes (evals : List ScopeEvaluator) (scopes : List String)
    (p : FieldPath) : List FieldError :=
  validateScopesFrom evals p 0 scopes

/-- Modelled from the spec: object metadata as read by this package.  The
source only reads `.Name`; every other Kubernetes metadata field is only ever
handed whole to the external metadata validators, and is abstracted here as
the opaque `rest` component. -/
structure ObjectMeta where
  name : String
  rest : String
deriving DecidableEq, Repr

/-- Modelled from the spec: `OAuthAccessToken`
(`{name, clientName, userName, userUID, scopes, redirectURI}`). -/
structure OAuthAccessToken where
  objectMeta : ObjectMeta
  clientName : String
  userName : String
  userUID : String
  scopes : List String
  redirectURI : String
deriving DecidableEq, Repr

/-- Modelled from the spec: `OAuthAuthorizeToken` (the access-token fields
plus `codeChallenge` and `codeChallengeMethod`). -/
structure OAuthAuthorizeToken where
  objectMeta : ObjectMeta
  clientName : String
  userName : String
  userUID : String
  scopes : List String
  redirectURI : String
  codeChallenge : String
  codeChallengeMethod : String
deriving DecidableEq, Repr

/-- Modelled from the spec: `ClusterRole` scope restriction
(`{roleNames, namespaces}`). -/
structure ClusterRoleScopeRestriction where
  roleNames : List String
  namespaces : List String
deriving DecidableEq, Repr

/-- Modelled from the spec: `ScopeRestriction` with `ExactValues` (a sequence
of literals) and an optional `ClusterRole` (`nil` modelled as `none`). -/
structure ScopeRestriction where
  exactValues : List String
  clusterRole : Option ClusterRoleScopeRestriction
deriving DecidableEq, Repr

/-- Modelled from the spec: `OAuthClient`
(`{name, redirectURIs, scopeRestrictions}`). -/
structure OAuthClient where
  objectMeta : ObjectMeta
  redirectURIs : List String
  scopeRestrictions : List ScopeRestriction
deriving DecidableEq, Repr

/-- Modelled from the spec: `OAuthClientAuthorization`
(`{name, clientName, userName, userUID, scopes}`). -/
structure OAuthClientAuthorization where
  objectMeta : ObjectMeta
  clientName : String
  userName : String
  userUID : String
  scopes : List String
deriving DecidableEq, Repr

/-- The external collaborators consumed by this package, bundled: Kubernetes
`ValidateObjectMeta` / `ValidateObjectMetaUpdate` / `ValidateImmutableField`
(one monomorphic field per token type), `serviceaccount.SplitUsername`
(returning namespace and service-account name, or an error),
`ValidateServiceAccountName`, `NameIsDNSSubdomain`, the user-name validator,
`oapi.MinimalNameRequirements`, `url.Parse`, and the registered scope
evaluators. -/
structure Externals where
  minimalNameRequirements : String → Bool → List String
  validateObjectMeta :
    ObjectMeta → Bool → (String → Bool → List String) → FieldPath → List FieldError
  validateObjectMetaUpdate : ObjectMeta → ObjectMeta → FieldPath → List FieldError
  validateImmutableAccessToken :
    OAuthAccessToken → OAuthAccessToken → FieldPath → List FieldError
  validateImmutableAuthorizeToken :
    OAuthAuthorizeToken → OAuthAuthorizeToken → FieldPath → List FieldError
  splitUsername : String → Except String (String × String)
  validateServiceAccountName : String → Bool → List String
  nameIsDNSSubdomain : String → Bool → List String
  validateUserName : String → Bool → List String
  scopeEvaluators : List ScopeEvaluator
  parseURL : String → Except String ParsedURL

/-- `ValidateClientNameField`: empty is required; a service-account username
is checked with the service-account name validator; otherwise the value must
be a DNS subdomain. -/
def ValidateClientNameField (ext : Externals) (value : String)
    (fldPath : FieldPath) : List FieldError :=
  if goLen value = 0 then [fieldRequired fldPath ""]
  else
    match ext.splitUsername value with
    | Except.ok (_, saName) =>
      if (ext.validateServiceAccountName saName false).length ≠ 0 then
        [fieldInvalid fldPath value
          (String.intercalate ", " (ext.validateServiceAccountName saName false))]
      else []
    | Except.error _ =>
      if (ext.nameIsDNSSubdomain value false).length ≠ 0 then
        [fieldInvalid fldPath value
          (String.intercalate ", " (ext.nameIsDNSSubdomain value false))]
      else []

/-- `ValidateUserNameField`: empty is required; otherwise delegate to the
external user-name validator. -/
def ValidateUserNameField (ext : Externals) (value : String)
    (fldPath : FieldPath) : List FieldError :=
  if goLen value = 0 then [fieldRequired fldPath ""]
  else if (ext.validateUserName value false).length ≠ 0 then
    [fieldInvalid fldPath value (String.intercalate ", " (ext.validateUserName value false))]
  else []

/-- The `userUID` required check shared by the token validators
(`if len(UserUID) == 0`), at the given path. -/
def userUIDRequired (uid : String) (p : FieldPath) : List FieldError :=
  if goLen uid = 0 then [fieldRequired p ""] else []

/-- The `redirectURI` check shared by the token validators: wrap a failed
`ValidateRedirectURI` as an `Invalid` error. -/
def redirectURIErrors (ext : Externals) (uri : String) (p : FieldPath) :
    List FieldError :=
  match ValidateRedirectURI ext.parseURL uri with
  | (ok, msg) => if ok then [] else [fieldInvalid p uri msg]

/-- `ValidateAccessToken`. -/
def ValidateAccessToken (ext : Externals) (t : OAuthAccessToken) : List FieldError :=
  ext.validateObjectMeta t.objectMeta false
      (ValidateTokenName ext.minimalNameRequirements) (newPath ["metadata"])
    ++ ValidateClientNameField ext t.clientName (newPath ["clientName"])
    ++ ValidateUserNameField ext t.userName (newPath ["userName"])
    ++ ValidateScopes ext.scopeEvaluators t.scopes (newPath ["scopes"])
    ++ userUIDRequired t.userUID (newPath ["userUID"])
    ++ redirectURIErrors ext t.redirectURI (newPath ["redirectURI"])

/-- `ValidateAccessTokenUpdate`: metadata-update validation plus a
whole-object immutability check against the old token with its metadata
replaced by the new token's (`copied := *oldToken; copied.ObjectMeta =
newToken.ObjectMeta`). -/
def ValidateAccessTokenUpdate (ext : Externals)
    (newToken oldToken : OAuthAccessToken) : List FieldError :=
  ext.validateObjectMetaUpdate newToken.objectMeta oldToken.objectMeta (newPath ["metadata"])
    ++ ext.validateImmutableAccessToken newToken
        { oldToken with objectMeta := newToken.objectMeta } (newPath [""])

/-- One code-challenge character of `codeChallengeRegex`: `[a-zA-Z0-9._~-]`. -/
def codeChallengeChar (c : Char) : Bool :=
  ('a'.toNat ≤ c.toNat && c.toNat ≤ 'z'.toNat)
    || ('A'.toNat ≤ c.toNat && c.toNat ≤ 'Z'.toNat)
    || ('0'.toNat ≤ c.toNat && c.toNat ≤ '9'.toNat)
    || c = '.' || c = '_' || c = '~' || c = '-'

/-- `codeChallengeRegex.MatchString` for `^[a-zA-Z0-9._~-]{43,128}$`: every
rune in the class and 43 to 128 runes in total. -/
def codeChallengeRegexMatch (s : String) : Bool :=
  s.data.all codeChallengeChar && decide (43 ≤ s.data.length) && decide (s.data.length ≤ 128)

/-- The first `switch` of the PKCE block: the `codeChallenge` checks. -/
def pkceChallengeErrors (t : OAuthAuthorizeToken) : List FieldError :=
  if goLen t.codeChallenge = 0 then
    [fieldRequired (newPath ["codeChallenge"]) "required if codeChallengeMethod is specified"]
  else if ¬ codeChallengeRegexMatch t.codeChallenge then
    [fieldInvalid (newPath ["codeChallenge"]) t.codeChallenge
      "must be 43-128 characters [a-zA-Z0-9.~_-]"]
  else []

/-- The second `switch` of the PKCE block: the `codeChallengeMethod` checks
(`case "":` required, `case plain, S256:` no-op, `default:` not supported). -/
def pkceMethodErrors (t : OAuthAuthorizeToken) : List FieldError :=
  if t.codeChallengeMethod = "" then
    [fieldRequired (newPath ["codeChallengeMethod"]) "required if codeChallenge is specified"]
  else if t.codeChallengeMethod = codeChallengeMethodPlain
      ∨ t.codeChallengeMethod = codeChallengeMethodSHA256 then []
  else
    [fieldNotSupported (newPath ["codeChallengeMethod"]) t.codeChallengeMethod
      CodeChallengeMethodsSupported]

/-- The PKCE block of `ValidateAuthorizeToken` (lines guarded by
`len(CodeChallenge) > 0 || len(CodeChallengeMethod) > 0`). -/
def pkceErrors (t : OAuthAuthorizeToken) : List FieldError :=
  if goLen t.codeChallenge > 0 ∨ goLen t.codeChallengeMethod > 0 then
    pkceChallengeErrors t ++ pkceMethodErrors t
  else []

/-- `ValidateAuthorizeToken`. -/
def ValidateAuthorizeToken (ext : Externals) (t : OAuthAuthorizeToken) : List FieldError :=
  ext.validateObjectMeta t.objectMeta false
      (ValidateTokenName ext.minimalNameRequirements) (newPath ["metadata"])
    ++ ValidateClientNameField ext t.clientName (newPath ["clientName"])
    ++ ValidateUserNameField ext t.userName (newPath ["userName"])
    ++ ValidateScopes ext.scopeEvaluators t.scopes (newPath ["scopes"])
    ++ userUIDRequired t.userUID (newPath ["userUID"])
    ++ redirectURIErrors ext t.redirectURI (newPath ["redirectURI"])
    ++ pkceErrors t

/-- `ValidateAuthorizeTokenUpdate`: same shape as the access-token variant. -/
def ValidateAuthorizeTokenUpdate (ext : Externals)
    (newToken oldToken : OAuthAuthorizeToken) : List FieldError :=
  ext.validateObjectMetaUpdate newToken.objectMeta oldToken.objectMeta (newPath ["metadata"])
    ++ ext.validateImmutableAuthorizeToken newToken
        { oldToken with objectMeta := newToken.objectMeta } (newPath [""])

/-- The `ExactValues` loop of `ValidateScopeRestriction`: an `Invalid` error
for each empty literal, at `literals[i]`. -/
def exactValuesErrors (fldPath : FieldPath) : Nat → List String → List FieldError
  | _, [] => []
  | i, lit :: rest =>
    (if goLen lit = 0 then
      [fieldInvalid (pathIndex (pathChild fldPath ["literals"]) i) lit "may not be empty"]
     else [])
      ++ exactValuesErrors fldPath (i + 1) rest

/-- `ValidateScopeRestriction`: exactly one of `ExactValues` (non-empty) or
`ClusterRole` (non-nil) must be populated; otherwise a single error is
returned at once.  Then the per-variant sub-field checks run. -/
def ValidateScopeRestriction (r : ScopeRestriction) (fldPath : FieldPath) :
    List FieldError :=
  let specifiers :=
    (if r.exactValues.length > 0 then 1 else 0) + (if r.clusterRole.isSome then 1 else 0)
  if specifiers ≠ 1 then
    [fieldInvalid fldPath "" "exactly one of literals, clusterRole is required"]
  else if r.exactValues.length > 0 then exactValuesErrors fldPath 0 r.exactValues
  else
    match r.clusterRole with
    | some cr =>
      (if cr.roleNames.length = 0 then
        [fieldRequired (pathChild fldPath ["clusterRole", "roleNames"]) "won\x27t match anything"]
       else [])
        ++ (if cr.namespaces.length = 0 then
          [fieldRequired (pathChild fldPath ["clusterRole", "namespaces"]) "won\x27t match anything"]
         else [])
    | none => []

/-- The `RedirectURIs` loop of `ValidateClient`. -/
def clientRedirectErrors (ext : Externals) (p : FieldPath) :
    Nat → List String → List FieldError
  | _, [] => []
  | i, uri :: rest =>
    (match ValidateRedirectURI ext.parseURL uri with
     | (ok, msg) => if ok then [] else [fieldInvalid (pathIndex p i) uri msg])
      ++ clientRedirectErrors ext p (i + 1) rest

/-- The `ScopeRestrictions` loop of `ValidateClient`. -/
def clientRestrictionErrors (p : FieldPath) :
    Nat → List ScopeRestriction → List FieldError
  | _, [] => []
  | i, r :: rest =>
    ValidateScopeRestriction r (pathIndex p i) ++ clientRestrictionErrors p (i + 1) rest

/-- `ValidateClient`. -/
def ValidateClient (ext : Externals) (c : OAuthClient) : List FieldError :=
  ext.validateObjectMeta c.objectMeta false ext.nameIsDNSSubdomain (newPath ["metadata"])
    ++ clientRedirectErrors ext (newPath ["redirectURIs"]) 0 c.redirectURIs
    ++ clientRestrictionErrors (newPath ["scopeRestrictions"]) 0 c.scopeRestrictions

/-- `ValidateClientUpdate`: full validation of the new client plus
metadata-update validation. -/
def ValidateClientUpdate (ext : Externals) (client oldClient : OAuthClient) :
    List FieldError :=
  ValidateClient ext client
    ++ ext.validateObjectMetaUpdate client.objectMeta oldClient.objectMeta (newPath ["metadata"])

/-- The field checks of `ValidateClientAuthorization` that follow the
metadata/derived-name stage: clientName, userName, scopes, and the `useruid`
required check (note the lower-case path in the source). -/
def clientAuthorizationFieldErrors (ext : Externals)
    (a : OAuthClientAuthorization) : List FieldError :=
  ValidateClientNameField ext a.clientName (newPath ["clientName"])
    ++ ValidateUserNameField ext a.userName (newPath ["userName"])
    ++ ValidateScopes ext.scopeEvaluators a.scopes (newPath ["scopes"])
    ++ userUIDRequired a.userUID (newPath ["useruid"])

/-- `ValidateClientAuthorization`: metadata errors if any, otherwise the
derived-name (`userName:clientName`) equality check, followed by the field
checks. -/
def ValidateClientAuthorization (ext : Externals)
    (a : OAuthClientAuthorization) : List FieldError :=
  let expectedName := a.userName ++ ":" ++ a.clientName
  let metadataErrs :=
    ext.validateObjectMeta a.objectMeta false
      (ValidateClientAuthorizationName ext.minimalNameRequirements) (newPath ["metadata"])
  (if metadataErrs.length > 0 then metadataErrs
   else if a.objectMeta.name ≠ expectedName then
    [fieldInvalid (newPath ["metadata", "name"]) a.objectMeta.name
      "must be in the format <userName>:<clientName>"]
   else [])
    ++ clientAuthorizationFieldErrors ext a

/-- `ValidateClientAuthorizationUpdate`: full validation of the new object,
metadata-update validation, then equality checks on the immutable fields. -/
def ValidateClientAuthorizationUpdate (ext : Externals)
    (newAuth oldAuth : OAuthClientAuthorization) : List FieldError :=
  ValidateClientAuthorization ext newAuth
    ++ ext.validateObjectMetaUpdate newAuth.objectMeta oldAuth.objectMeta (newPath ["metadata"])
    ++ (if oldAuth.clientName ≠ newAuth.clientName then
        [fieldInvalid (newPath ["clientName"]) newAuth.clientName
          "clientName is not a mutable field"]
       else [])
    ++ (if oldAuth.userName ≠ newAuth.userName then
        [fieldInvalid (newPath ["userName"]) newAuth.userName
          "userName is not a mutable field"]
       else [])
    ++ (if oldAuth.userUID ≠ newAuth.userUID then
        [fieldInvalid (newPath ["userUID"]) newAuth.userUID
          "userUID is not a mutable field"]
       else [])

/-- Modelled from the spec: a concrete instantiation of the external
collaborators, for use in witnesses and counterexamples.  The black-box
metadata and name checks accept everything; the generic metadata-update and
immutable-field diffs report a change exactly when the compared values
differ, per the spec's description of the immutable-field diffing utility;
`splitUsername` fails (the value is not a service-account username); no scope
evaluators are registered; URL parsing always fails (never exercised below). -/
def extTriv : Externals where
  minimalNameRequirements := fun _ _ => []
  validateObjectMeta := fun _ _ _ _ => []
  validateObjectMetaUpdate := fun m1 m2 p =>
    if m1 = m2 then [] else [fieldInvalid p "" "field is immutable"]
  validateImmutableAccessToken := fun a b p =>
    if a = b then [] else [fieldInvalid p "" "field is immutable"]
  validateImmutableAuthorizeToken := fun a b p =>
    if a = b then [] else [fieldInvalid p "" "field is immutable"]
  splitUsername := fun _ => Except.error "Invalid username"
  validateServiceAccountName := fun _ _ => []
  nameIsDNSSubdomain := fun _ _ => []
  validateUserName := fun _ _ => []
  scopeEvaluators := []
  parseURL := fun _ => Except.error "parse error"

/-- Errors of the character-screening stage all sit at the scope's index
path. -/
lemma scopeCharErrors_path {p : FieldPath} {i : Nat} {s : String} :
    ∀ e ∈ scopeCharErrors p i s, e.path = pathIndex p i := by
  intro e he
  simp only [scopeCharErrors, List.mem_map] at he
  obtain ⟨c, _, rfl⟩ := he
  rfl

/-- Errors of the evaluator-dispatch stage all sit at the scope's index
path. -/
lemma scopeEvaluatorDispatch_path {p : FieldPath} {i : Nat} {s : String} :
    ∀ (evals : List ScopeEvaluator) (found : Bool),
      ∀ e ∈ scopeEvaluatorDispatch p i s evals found, e.path = pathIndex p i := by
  intro evals
  induction evals with
  | nil =>
    intro found e he
    simp only [scopeEvaluatorDispatch] at he
    split at he <;> simp at he
    subst he; rfl
  | cons ev rest ih =>
    intro found e he
    simp only [scopeEvaluatorDispatch] at he
    split at he
    · cases hv : ev.validate s with
      | some msg => rw [hv] at he; simp at he; subst he; rfl
      | none => rw [hv] at he; exact ih true e he
    · exact ih found e he

/-- Every error produced by `ValidateScopes` sits at some index path below
the scopes path. -/
lemma validateScopesFrom_path {evals : List ScopeEvaluator} {p : FieldPath} :
    ∀ (scopes : List String) (i : Nat),
      ∀ e ∈ validateScopesFrom evals p i scopes, ∃ j, e.path = pathIndex p j := by
  intro scopes
  induction scopes with
  | nil => intro i e he; simp [validateScopesFrom] at he
  | cons s rest ih =>
    intro i e he
    simp only [validateScopesFrom, List.mem_append] at he
    rcases he with he | he
    · split at he
      · exact ⟨i, scopeEvaluatorDispatch_path evals false e he⟩
      · exact ⟨i, scopeCharErrors_path e he⟩
    · exact ih (i + 1) e he

/-- The outer loop of `ValidateScopes` distributes over list append, with the
index shifted by the length of the first part. -/
lemma validateScopesFrom_append (evals : List ScopeEvaluator) (p : FieldPath) :
    ∀ (xs ys : List String) (i : Nat),
      validateScopesFrom evals p i (xs ++ ys) =
        validateScopesFrom evals p i xs ++ validateScopesFrom evals p (i + xs.length) ys := by
  intro xs
  induction xs with
  | nil => intro ys i; simp [validateScopesFrom]
  | cons x rest ih =>
    intro ys i
    simp only [List.cons_append, validateScopesFrom, List.append_eq, List.length_cons,
      List.append_assoc]
    rw [ih ys (i + 1), show i + (rest.length + 1) = i + 1 + rest.length from by omega]

/-- `ValidateClientNameField` only produces errors at the path it is given. -/
lemma validateClientNameField_path {ext : Externals} {v : String} {p : FieldPath} :
    ∀ e ∈ ValidateClientNameField ext v p, e.path = p := by
  intro e he
  unfold ValidateClientNameField at he
  split at he
  · simp at he; subst he; rfl
  · split at he <;> (split at he <;> simp at he) <;> (subst he; rfl)

/-- `ValidateUserNameField` only produces errors at the path it is given. -/
lemma validateUserNameField_path {ext : Externals} {v : String} {p : FieldPath} :
    ∀ e ∈ ValidateUserNameField ext v p, e.path = p := by
  intro e he
  unfold ValidateUserNameField at he
  split at he
  · simp at he; subst he; rfl
  · split at he <;> simp at he
    subst he; rfl

/-- `userUIDRequired` only produces errors at the path it is given. -/
lemma userUIDRequired_path {uid : String} {p : FieldPath} :
    ∀ e ∈ userUIDRequired uid p, e.path = p := by
  intro e he
  unfold userUIDRequired at he
  split at he <;> simp at he
  subst he; rfl

/-- C8: for every string of byte length `< 32`, `ValidateTokenName(s, false)`
yields at least one reason: the minimal-name reasons when they are non-empty,
otherwise the `MinTokenLength` reason. -/
theorem c8_short_token_name_rejected
    (minimal : String → Bool → List String) (s : String)
    (h : goLen s < 32) : ValidateTokenName minimal s false ≠ [] := by
  unfold ValidateTokenName
  by_cases hr : (minimal s false).length ≠ 0
  · simpa [hr] using fun hnil => hr (by simp [hnil])
  · simp only [hr, if_false, ite_not]
    simp only [not_not, List.length_eq_zero] at hr
    simp [MinTokenLength, h]

/-- C8 witness: `"short"` has fewer than 32 bytes and is rejected under the
trivial minimal-name check. -/
theorem c8_short_token_name_rejected_witness :
    goLen "short" < 32 ∧ ValidateTokenName (fun _ _ => []) "short" false ≠ [] :=
  ⟨by decide, c8_short_token_name_rejected (fun _ _ => []) "short" (by decide)⟩

/-- A minimal-name-requirements model that rejects the concrete name
`"bad"`. -/
def minimalRejectBad : String → Bool → List String :=
  fun n _ => if n = "bad" then ["name is bad"] else []

/-- C3 counterexample: `"bad"` fails the minimal-name check and has length
below 32 (and also lacks a colon), yet `ValidateTokenName` returns only the
minimal-name reason — the length reason is absent — and
`ValidateClientAuthorizationName` returns only the minimal-name reason — the
colon-format reason is absent. -/
theorem c3_counterexample_no_error_accumulation :
    goLen "bad" < 32
    ∧ minimalRejectBad "bad" false = ["name is bad"]
    ∧ ValidateTokenName minimalRejectBad "bad" false = ["name is bad"]
    ∧ "must be at least 32 characters long" ∉ ValidateTokenName minimalRejectBad "bad" false
    ∧ ValidateClientAuthorizationName minimalRejectBad "bad" false = ["name is bad"]
    ∧ "must be in the format <userName>:<clientName>"
        ∉ ValidateClientAuthorizationName minimalRejectBad "bad" false := by
  refine ⟨by decide, rfl, rfl, by decide, rfl, by decide⟩

/-- C3 amended: the name validators short-circuit on the minimal-name check:
whenever it returns a non-empty reason list, both `ValidateTokenName` and
`ValidateClientAuthorizationName` return exactly that list, and the length
reason (resp. the colon-format reason) is not added even when it would
apply. -/
theorem c3_name_validators_short_circuit
    (minimal : String → Bool → List String) (name : String) (pfx : Bool)
    (h : minimal name pfx ≠ []) :
    ValidateTokenName minimal name pfx = minimal name pfx
    ∧ ValidateClientAuthorizationName minimal name pfx = minimal name pfx := by
  have hl : (minimal name pfx).length ≠ 0 := by simpa [List.length_eq_zero] using h
  constructor
  · unfold ValidateTokenName
    simp [hl]
  · unfold ValidateClientAuthorizationName
    simp [hl]

/-- C3 amended witness: at the rejected name `"bad"`, both validators return
exactly the minimal-name reasons. -/
theorem c3_name_validators_short_circuit_witness :
    minimalRejectBad "bad" false ≠ []
    ∧ ValidateTokenName minimalRejectBad "bad" false = minimalRejectBad "bad" false
    ∧ ValidateClientAuthorizationName minimalRejectBad "bad" false
        = minimalRejectBad "bad" false := by
  refine ⟨by decide, ?_⟩
  exact c3_name_validators_short_circuit minimalRejectBad "bad" false (by decide)

/-- C7: whenever zero or both of `ExactValues` (non-empty) and `ClusterRole`
(non-nil) are populated, `ValidateScopeRestriction` returns exactly the one
"exactly one of literals, clusterRole is required" error and no sub-field
errors. -/
theorem c7_scope_restriction_exactly_one
    (r : ScopeRestriction) (p : FieldPath)
    (h : (r.exactValues = [] ∧ r.clusterRole = none)
      ∨ (r.exactValues ≠ [] ∧ r.clusterRole.isSome)) :
    ValidateScopeRestriction r p =
      [fieldInvalid p "" "exactly one of literals, clusterRole is required"] := by
  unfold ValidateScopeRestriction
  rcases h with ⟨h1, h2⟩ | ⟨h1, h2⟩
  · simp [h1, h2]
  · have hl : 0 < r.exactValues.length := List.length_pos.mpr h1
    simp [hl, h2]

/-- C7 witness: a restriction with both variants populated yields exactly the
one error. -/
theorem c7_scope_restriction_exactly_one_witness :
    ValidateScopeRestriction ⟨["a"], some ⟨["admin"], ["ns"]⟩⟩ (newPath ["scopeRestrictions"]) =
      [fieldInvalid (newPath ["scopeRestrictions"]) ""
        "exactly one of literals, clusterRole is required"] :=
  c7_scope_restriction_exactly_one ⟨["a"], some ⟨["admin"], ["ns"]⟩⟩ (newPath ["scopeRestrictions"])
    (Or.inr ⟨by decide, by decide⟩)

/-- An evaluator that handles every scope and always validates it. -/
def evAcceptAll : ScopeEvaluator := ⟨fun _ => true, fun _ => none⟩

/-- An evaluator that handles every scope and always rejects it with the
message `"boom"`. -/
def evRejectAll : ScopeEvaluator := ⟨fun _ => true, fun _ => some "boom"⟩

/-- C1 counterexample: with a first registered evaluator that handles
`"user:info"` and validates it successfully, a second evaluator that also
handles it still has its `Validate` consulted, and that second evaluator's
error is the `FieldError` produced — the loop only breaks on the first
`Validate` error, not on the first `Handles` match. -/
theorem c1_counterexample_second_evaluator_consulted :
    evAcceptAll.handles "user:info" = true
    ∧ evAcceptAll.validate "user:info" = none
    ∧ evRejectAll.handles "user:info" = true
    ∧ ValidateScopes [evAcceptAll, evRejectAll] ["user:info"] [] =
        [fieldInvalid (pathIndex [] 0) "user:info" "boom"] :=
  ⟨rfl, rfl, rfl, rfl⟩

/-- Dispatch helper for the amended C1: handling evaluators whose `Validate`
succeeds are passed over (with `found` set), and the first handling evaluator
whose `Validate` errors produces the single error, with everything after it
ignored. -/
lemma scopeEvaluatorDispatch_first_error {p : FieldPath} {i : Nat} {scope msg : String}
    {ev : ScopeEvaluator} (hh : ev.handles scope = true)
    (hv : ev.validate scope = some msg) :
    ∀ (pre post : List ScopeEvaluator),
      (∀ e ∈ pre, e.handles scope = true → e.validate scope = none) →
      ∀ found, scopeEvaluatorDispatch p i scope (pre ++ ev :: post) found =
        [fieldInvalid (pathIndex p i) scope msg] := by
  intro pre
  induction pre with
  | nil =>
    intro post _ found
    simp only [List.nil_append, scopeEvaluatorDispatch, hh, if_true, hv]
  | cons e rest ih =>
    intro post hpre found
    simp only [List.cons_append, scopeEvaluatorDispatch]
    by_cases hhe : e.handles scope = true
    · have hve : e.validate scope = none := hpre e (List.mem_cons_self e rest) hhe
      simp only [hhe, if_true, hve]
      exact ih post (fun x hx hhx => hpre x (List.mem_cons_of_mem e hx) hhx) true
    · simp only [hhe, if_false]
      exact ih post (fun x hx hhx => hpre x (List.mem_cons_of_mem e hx) hhx) found

/-- Scope screening accepts a scope exactly when all its characters are
legal. -/
lemma scopeCharErrors_isEmpty {p : FieldPath} {i : Nat} {s : String} :
    (scopeCharErrors p i s).isEmpty = s.data.all legalScopeChar := by
  unfold scopeCharErrors
  cases hall : s.data.all legalScopeChar with
  | true =>
    have : s.data.filter (fun c => !legalScopeChar c) = [] := by
      rw [List.filter_eq_nil_iff]
      intro a ha
      simp only [Bool.not_eq_true']
      simpa using List.all_eq_true.mp hall a ha
    simp [this]
  | false =>
    obtain ⟨c, hc, hlc⟩ := by simpa using List.all_eq_false.mp hall
    have : c ∈ s.data.filter (fun c => !legalScopeChar c) := by
      simp [List.mem_filter, hc, hlc]
    rcases hf : s.data.filter (fun c => !legalScopeChar c) with _ | ⟨x, xs⟩
    · rw [hf] at this; simp at this
    · simp [hf]

/-- C1 amended: for a scope that passes character screening, dispatch walks
the registration order invoking `Validate` on every evaluator that handles
the scope; the first handling evaluator whose `Validate` returns an error
contributes the scope's single `FieldError`, and evaluators registered after
that first failing evaluator are never consulted (the result does not depend
on them).  When an earlier handling evaluator validates successfully, a later
evaluator's `Validate` outcome is still used. -/
theorem c1_dispatch_stops_at_first_validate_error
    (pre post : List ScopeEvaluator) (ev : ScopeEvaluator)
    (scope msg : String) (p : FieldPath)
    (hchars : scope.data.all legalScopeChar = true)
    (hh : ev.handles scope = true)
    (hv : ev.validate scope = some msg)
    (hpre : ∀ e ∈ pre, e.handles scope = true → e.validate scope = none) :
    ValidateScopes (pre ++ ev :: post) [scope] p =
      [fieldInvalid (pathIndex p 0) scope msg] := by
  unfold ValidateScopes validateScopesFrom
  rw [scopeCharErrors_isEmpty, hchars, if_pos rfl,
    scopeEvaluatorDispatch_first_error hh hv pre post hpre false]
  simp [validateScopesFrom]

/-- C1 amended witness: an accepting evaluator before and after the rejecting
one — the rejecting evaluator's error is the result, whatever follows it. -/
theorem c1_dispatch_stops_at_first_validate_error_witness :
    (("user:info").data.all legalScopeChar = true)
    ∧ evRejectAll.handles "user:info" = true
    ∧ evRejectAll.validate "user:info" = some "boom"
    ∧ ValidateScopes [evAcceptAll, evRejectAll, evAcceptAll] ["user:info"] [] =
        [fieldInvalid (pathIndex [] 0) "user:info" "boom"] := by
  refine ⟨by decide, rfl, rfl, ?_⟩
  exact c1_dispatch_stops_at_first_validate_error [evAcceptAll] [evAcceptAll] evRejectAll
    "user:info" "boom" [] (by decide) rfl rfl
    (by intro e he hh; simp only [List.mem_singleton] at he; subst he; rfl)

/-- An access token with a single space scope, otherwise well-formed under
the trivial externals; used to separate full validation from update
validation. -/
def tokSpaceScope : OAuthAccessToken :=
  ⟨⟨"tokenname", ""⟩, "client", "user", "uid", [" "], ""⟩

/-- An authorize token with a single space scope and no PKCE fields. -/
def authTokSpaceScope : OAuthAuthorizeToken :=
  ⟨⟨"tokenname", ""⟩, "client", "user", "uid", [" "], "", "", ""⟩

/-- C2 counterexample: full validation of the new (= old) access token
produces a scope error, but `ValidateAccessTokenUpdate` on that very token
returns no errors at all — the update validator does not re-run full
validation; likewise for the authorize token. -/
theorem c2_counterexample_update_skips_full_validation :
    fieldInvalid (pathIndex (newPath ["scopes"]) 0) " " "32 not allowed"
        ∈ ValidateAccessToken extTriv tokSpaceScope
    ∧ ValidateAccessTokenUpdate extTriv tokSpaceScope tokSpaceScope = []
    ∧ fieldInvalid (pathIndex (newPath ["scopes"]) 0) " " "32 not allowed"
        ∈ ValidateAuthorizeToken extTriv authTokSpaceScope
    ∧ ValidateAuthorizeTokenUpdate extTriv authTokSpaceScope authTokSpaceScope = [] := by
  refine ⟨by decide, by decide, by decide, by decide⟩

/-- C2 amended: only the client and client-authorization update validators
re-run full validation of the new object — every `FieldError` from full
validation of the new object is contained in their update result.  The
access- and authorize-token update validators do not re-run full validation:
they return exactly the generic metadata-update errors followed by the
whole-object immutable-field diff against the old object with its metadata
replaced by the new metadata. -/
theorem c2_update_validators_full_validation (ext : Externals) :
    (∀ (c oldc : OAuthClient) (e : FieldError),
      e ∈ ValidateClient ext c → e ∈ ValidateClientUpdate ext c oldc)
    ∧ (∀ (a olda : OAuthClientAuthorization) (e : FieldError),
      e ∈ ValidateClientAuthorization ext a → e ∈ ValidateClientAuthorizationUpdate ext a olda)
    ∧ (∀ (nt ot : OAuthAccessToken),
      ValidateAccessTokenUpdate ext nt ot =
        ext.validateObjectMetaUpdate nt.objectMeta ot.objectMeta (newPath ["metadata"])
          ++ ext.validateImmutableAccessToken nt { ot with objectMeta := nt.objectMeta }
              (newPath [""]))
    ∧ (∀ (nt ot : OAuthAuthorizeToken),
      ValidateAuthorizeTokenUpdate ext nt ot =
        ext.validateObjectMetaUpdate nt.objectMeta ot.objectMeta (newPath ["metadata"])
          ++ ext.validateImmutableAuthorizeToken nt { ot with objectMeta := nt.objectMeta }
              (newPath [""])) := by
  refine ⟨?_, ?_, fun _ _ => rfl, fun _ _ => rfl⟩
  · intro c oldc e he
    unfold ValidateClientUpdate
    exact List.mem_append_left _ he
  · intro a olda e he
    unfold ValidateClientAuthorizationUpdate
    exact List.mem_append_left _ (List.mem_append_left _ (List.mem_append_left _
      (List.mem_append_left _ he)))

/-- A client authorization with an empty `userUID` and an otherwise
consistent name. -/
def authEmptyUID : OAuthClientAuthorization :=
  ⟨⟨"user:client", ""⟩, "client", "user", "", []⟩

/-- A client with a scope restriction populating neither variant. -/
def clientEmptyRestriction : OAuthClient :=
  ⟨⟨"clientname", ""⟩, [], [⟨[], none⟩]⟩

/-- C2 amended witness: a full-validation error of the new client (resp.
client authorization) shows up in the corresponding update result. -/
theorem c2_update_validators_full_validation_witness :
    fieldInvalid (pathIndex (newPath ["scopeRestrictions"]) 0) ""
        "exactly one of literals, clusterRole is required"
      ∈ ValidateClientUpdate extTriv clientEmptyRestriction clientEmptyRestriction
    ∧ fieldRequired (newPath ["useruid"]) ""
      ∈ ValidateClientAuthorizationUpdate extTriv authEmptyUID authEmptyUID := by
  constructor
  · exact (c2_update_validators_full_validation extTriv).1 clientEmptyRestriction
      clientEmptyRestriction _ (by decide)
  · exact (c2_update_validators_full_validation extTriv).2.1 authEmptyUID authEmptyUID _
      (by decide)

/-- C4: a scope with any illegal character contributes exactly one `Invalid`
error per violating character (and nothing from evaluator dispatch), all at
that scope's index path, and the scopes after it are still processed with
their indices preserved — the outer loop never short-circuits. -/
theorem c4_charset_screening_accumulates
    (evals : List ScopeEvaluator) (p : FieldPath) (pre post : List String) (s : String)
    (h : ¬ s.data.all legalScopeChar = true) :
    ValidateScopes evals (pre ++ s :: post) p =
      validateScopesFrom evals p 0 pre
        ++ scopeCharErrors p pre.length s
        ++ validateScopesFrom evals p (pre.length + 1) post
    ∧ (scopeCharErrors p pre.length s).length
        = s.data.countP (fun c => !legalScopeChar c)
    ∧ ∀ e ∈ scopeCharErrors p pre.length s, e.path = pathIndex p pre.length := by
  refine ⟨?_, ?_, scopeCharErrors_path⟩
  · unfold ValidateScopes
    rw [validateScopesFrom_append evals p pre (s :: post) 0]
    simp only [Nat.zero_add, List.append_assoc]
    congr 1
    have hf : s.data.all legalScopeChar = false := by
      cases hx : s.data.all legalScopeChar
      · rfl
      · exact absurd hx h
    have step : validateScopesFrom evals p pre.length (s :: post) =
        (if (scopeCharErrors p pre.length s).isEmpty = true
          then scopeEvaluatorDispatch p pre.length s evals false
          else scopeCharErrors p pre.length s)
          ++ validateScopesFrom evals p (pre.length + 1) post := rfl
    rw [step, scopeCharErrors_isEmpty, hf, if_neg (by simp)]
  · unfold scopeCharErrors
    rw [List.length_map, List.countP_eq_length_filter]

/-- C4 witness: with a leading legal scope, a space scope in the middle and a
trailing legal scope, the space scope yields exactly its one per-character
error and the trailing scope is still validated. -/
theorem c4_charset_screening_accumulates_witness :
    (¬ (" ".data.all legalScopeChar = true))
    ∧ ValidateScopes [] (["ok", " ", "x!"]) [] =
        validateScopesFrom [] [] 0 ["ok"]
          ++ scopeCharErrors [] 1 " "
          ++ validateScopesFrom [] [] 2 ["x!"]
    ∧ (scopeCharErrors [] 1 " ").length = (" ".data.countP (fun c => !legalScopeChar c)) := by
  have h := c4_charset_screening_accumulates [] [] ["ok"] ["x!"] " " (by decide)
  exact ⟨by decide, h.1, h.2.1⟩

/-- Errors of the challenge switch all sit at `codeChallenge`. -/
lemma pkceChallengeErrors_path {t : OAuthAuthorizeToken} :
    ∀ e ∈ pkceChallengeErrors t, e.path = newPath ["codeChallenge"] := by
  intro e he
  unfold pkceChallengeErrors at he
  split at he
  · simp at he; subst he; rfl
  · split at he <;> simp at he
    subst he; rfl

/-- Errors of the method switch all sit at `codeChallengeMethod`. -/
lemma pkceMethodErrors_path {t : OAuthAuthorizeToken} :
    ∀ e ∈ pkceMethodErrors t, e.path = newPath ["codeChallengeMethod"] := by
  intro e he
  unfold pkceMethodErrors at he
  split at he
  · simp at he; subst he; rfl
  · split at he <;> simp at he
    subst he; rfl

/-- The method switch never produces an `Invalid`-kind error. -/
lemma pkceMethodErrors_kind {t : OAuthAuthorizeToken} :
    ∀ e ∈ pkceMethodErrors t, e.kind ≠ ErrKind.invalid := by
  intro e he
  unfold pkceMethodErrors at he
  split at he
  · simp at he; subst he; simp [fieldRequired]
  · split at he <;> simp at he
    subst he; simp [fieldNotSupported]

/-- C5: for an authorize token entering the PKCE block, a non-empty challenge
whose characters are all in `[a-zA-Z0-9._~-]` yields an `Invalid` error at
`codeChallenge` exactly when its length falls outside 43..128; a non-empty
method yields no error at `codeChallengeMethod` exactly when it is `"plain"`
or `"S256"`; and any other non-empty method yields exactly one `NotSupported`
error listing `["plain", "S256"]`. -/
theorem c5_pkce_challenge_and_method (t : OAuthAuthorizeToken)
    (hp : goLen t.codeChallenge > 0 ∨ goLen t.codeChallengeMethod > 0) :
    (goLen t.codeChallenge ≠ 0 → t.codeChallenge.data.all codeChallengeChar = true →
      ((∃ e ∈ pkceErrors t, e.kind = ErrKind.invalid ∧ e.path = newPath ["codeChallenge"]) ↔
        ¬ (43 ≤ t.codeChallenge.data.length ∧ t.codeChallenge.data.length ≤ 128)))
    ∧ (goLen t.codeChallengeMethod ≠ 0 →
      ((∀ e ∈ pkceErrors t, e.path ≠ newPath ["codeChallengeMethod"]) ↔
        (t.codeChallengeMethod = "plain" ∨ t.codeChallengeMethod = "S256")))
    ∧ (goLen t.codeChallengeMethod ≠ 0 → t.codeChallengeMethod ≠ "plain" →
        t.codeChallengeMethod ≠ "S256" →
        (pkceErrors t).filter (fun e => decide (e.path = newPath ["codeChallengeMethod"])) =
          [fieldNotSupported (newPath ["codeChallengeMethod"]) t.codeChallengeMethod
            ["plain", "S256"]]) := by
  have hsplit : pkceErrors t = pkceChallengeErrors t ++ pkceMethodErrors t := by
    unfold pkceErrors; rw [if_pos hp]
  refine ⟨?_, ?_, ?_⟩
  · intro hc hall
    have hmatch : codeChallengeRegexMatch t.codeChallenge = true ↔
        (43 ≤ t.codeChallenge.data.length ∧ t.codeChallenge.data.length ≤ 128) := by
      unfold codeChallengeRegexMatch
      rw [hall]
      simp
    have hcp : pkceChallengeErrors t =
        if ¬ codeChallengeRegexMatch t.codeChallenge then
          [fieldInvalid (newPath ["codeChallenge"]) t.codeChallenge
            "must be 43-128 characters [a-zA-Z0-9.~_-]"]
        else [] := by
      unfold pkceChallengeErrors; rw [if_neg hc]
    constructor
    · rintro ⟨e, he, hek, _⟩
      rw [hsplit, List.mem_append] at he
      rcases he with he | he
      · rw [hcp] at he
        by_cases hmt : codeChallengeRegexMatch t.codeChallenge = true
        · rw [if_neg (not_not_intro hmt)] at he
          exact absurd he (List.not_mem_nil e)
        · exact fun hr => hmt (hmatch.mpr hr)
      · exact absurd hek (pkceMethodErrors_kind e he)
    · intro hrange
      refine ⟨fieldInvalid (newPath ["codeChallenge"]) t.codeChallenge
        "must be 43-128 characters [a-zA-Z0-9.~_-]", ?_, rfl, rfl⟩
      rw [hsplit, List.mem_append]
      left
      rw [hcp, if_pos (fun h => hrange (hmatch.mp h))]
      exact List.mem_singleton_self _
  · intro hm
    have hmne : t.codeChallengeMethod ≠ "" := by
      intro h
      exact hm (by rw [h]; rfl)
    have hmp : pkceMethodErrors t =
        if t.codeChallengeMethod = "plain" ∨ t.codeChallengeMethod = "S256" then []
        else
          [fieldNotSupported (newPath ["codeChallengeMethod"]) t.codeChallengeMethod
            CodeChallengeMethodsSupported] := by
      unfold pkceMethodErrors codeChallengeMethodPlain codeChallengeMethodSHA256
      rw [if_neg hmne]
    constructor
    · intro hall
      by_cases hpm : t.codeChallengeMethod = "plain" ∨ t.codeChallengeMethod = "S256"
      · exact hpm
      · exfalso
        apply hall (fieldNotSupported (newPath ["codeChallengeMethod"]) t.codeChallengeMethod
          CodeChallengeMethodsSupported) ?_ rfl
        rw [hsplit, List.mem_append]
        right
        rw [hmp, if_neg hpm]
        exact List.mem_singleton_self _
    · intro hpm e he
      rw [hsplit, List.mem_append] at he
      rcases he with he | he
      · rw [pkceChallengeErrors_path e he]
        decide
      · rw [hmp, if_pos hpm] at he
        exact absurd he (List.not_mem_nil e)
  · intro hm h1 h2
    have hmne : t.codeChallengeMethod ≠ "" := by
      intro h
      exact hm (by rw [h]; rfl)
    have hmp : pkceMethodErrors t =
        [fieldNotSupported (newPath ["codeChallengeMethod"]) t.codeChallengeMethod
          ["plain", "S256"]] := by
      unfold pkceMethodErrors CodeChallengeMethodsSupported codeChallengeMethodPlain
        codeChallengeMethodSHA256
      rw [if_neg hmne, if_neg (by tauto)]
    rw [hsplit, List.filter_append, hmp]
    have hcf : (pkceChallengeErrors t).filter
        (fun e => decide (e.path = newPath ["codeChallengeMethod"])) = [] := by
      rw [List.filter_eq_nil_iff]
      intro e he
      rw [pkceChallengeErrors_path e he]
      decide
    rw [hcf]
    simp [List.filter, fieldNotSupported, newPath]

/-- An authorize token whose challenge is 42 characters (one short of the
minimum) and whose method is the unsupported `"foo"`. -/
def authTokBadPkce : OAuthAuthorizeToken :=
  ⟨⟨"tokenname", ""⟩, "client", "user", "uid", [], "",
    String.mk (List.replicate 42 'a'), "foo"⟩

/-- C5 witness: at a 42-character challenge with method `"foo"`, the PKCE
block yields an `Invalid` challenge error and exactly one `NotSupported`
method error listing the two supported methods. -/
theorem c5_pkce_challenge_and_method_witness :
    (∃ e ∈ pkceErrors authTokBadPkce,
      e.kind = ErrKind.invalid ∧ e.path = newPath ["codeChallenge"])
    ∧ (pkceErrors authTokBadPkce).filter
        (fun e => decide (e.path = newPath ["codeChallengeMethod"])) =
      [fieldNotSupported (newPath ["codeChallengeMethod"]) "foo" ["plain", "S256"]] := by
  have h := c5_pkce_challenge_and_method authTokBadPkce (Or.inl (by decide))
  exact ⟨(h.1 (by decide) (by decide)).mpr (by decide), h.2.2 (by decide) (by decide) (by decide)⟩

/-- Every error of the post-name field checks of `ValidateClientAuthorization`
sits at `clientName`, `userName`, some `scopes[j]`, or `useruid`. -/
lemma clientAuthorizationFieldErrors_paths (ext : Externals)
    (a : OAuthClientAuthorization) :
    ∀ e ∈ clientAuthorizationFieldErrors ext a,
      e.path = newPath ["clientName"] ∨ e.path = newPath ["userName"]
        ∨ (∃ j, e.path = pathIndex (newPath ["scopes"]) j)
        ∨ e.path = newPath ["useruid"] := by
  intro e he
  unfold clientAuthorizationFieldErrors at he
  simp only [List.append_assoc, List.mem_append] at he
  rcases he with he | he | he | he
  · exact Or.inl (validateClientNameField_path e he)
  · exact Or.inr (Or.inl (validateUserNameField_path e he))
  · exact Or.inr (Or.inr (Or.inl (validateScopesFrom_path _ _ e he)))
  · exact Or.inr (Or.inr (Or.inr (userUIDRequired_path e he)))

/-- A scope index path never equals a two-key field path. -/
lemma pathIndex_scopes_ne_two_keys (j : Nat) (k1 k2 : String) :
    pathIndex (newPath ["scopes"]) j ≠ [PathSeg.key k1, PathSeg.key k2] := by
  intro hcon
  have := congrArg (fun l => l.get? 1) hcon
  simp [pathIndex, newPath] at this

/-- No error of the post-name field checks sits at `metadata.name`. -/
lemma clientAuthorizationFieldErrors_not_metadata_name (ext : Externals)
    (a : OAuthClientAuthorization) :
    ∀ e ∈ clientAuthorizationFieldErrors ext a, e.path ≠ newPath ["metadata", "name"] := by
  intro e he
  rcases clientAuthorizationFieldErrors_paths ext a e he with h | h | ⟨j, h⟩ | h
  · rw [h]; decide
  · rw [h]; decide
  · rw [h]; exact pathIndex_scopes_ne_two_keys j "metadata" "name"
  · rw [h]; decide

/-- C6: when the external metadata validation of a client authorization
returns no errors, the errors at `metadata.name` are exactly one `Invalid`
"must be in the format <userName>:<clientName>" error when the name differs
from `userName + ":" + clientName`, and none otherwise; when metadata
validation reports any error, the derived-name equality check is skipped
entirely — the result is exactly the metadata errors followed by the field
checks, which never touch `metadata.name`. -/
theorem c6_client_authorization_derived_name (ext : Externals)
    (a : OAuthClientAuthorization) :
    (ext.validateObjectMeta a.objectMeta false
        (ValidateClientAuthorizationName ext.minimalNameRequirements) (newPath ["metadata"]) = [] →
      (ValidateClientAuthorization ext a).filter
          (fun e => decide (e.path = newPath ["metadata", "name"])) =
        (if a.objectMeta.name = a.userName ++ ":" ++ a.clientName then []
         else [fieldInvalid (newPath ["metadata", "name"]) a.objectMeta.name
           "must be in the format <userName>:<clientName>"]))
    ∧ (ext.validateObjectMeta a.objectMeta false
        (ValidateClientAuthorizationName ext.minimalNameRequirements) (newPath ["metadata"]) ≠ [] →
      ValidateClientAuthorization ext a =
        ext.validateObjectMeta a.objectMeta false
          (ValidateClientAuthorizationName ext.minimalNameRequirements) (newPath ["metadata"])
          ++ clientAuthorizationFieldErrors ext a)
    ∧ (∀ e ∈ clientAuthorizationFieldErrors ext a, e.path ≠ newPath ["metadata", "name"]) := by
  have hfield : (clientAuthorizationFieldErrors ext a).filter
      (fun e => decide (e.path = newPath ["metadata", "name"])) = [] := by
    rw [List.filter_eq_nil_iff]
    intro e he
    simpa using clientAuthorizationFieldErrors_not_metadata_name ext a e he
  refine ⟨?_, ?_, clientAuthorizationFieldErrors_not_metadata_name ext a⟩
  · intro hm
    unfold ValidateClientAuthorization
    rw [hm]
    simp only [List.length_nil, gt_iff_lt, lt_self_iff_false, if_false]
    rw [List.filter_append, hfield, List.append_nil]
    by_cases hname : a.objectMeta.name = a.userName ++ ":" ++ a.clientName
    · rw [if_pos hname, if_neg (not_not_intro hname)]
      rfl
    · rw [if_neg hname, if_pos hname]
      simp [List.filter, fieldInvalid]
  · intro hm
    have hl : 0 < (ext.validateObjectMeta a.objectMeta false
        (ValidateClientAuthorizationName ext.minimalNameRequirements)
        (newPath ["metadata"])).length := List.length_pos.mpr hm
    simp only [ValidateClientAuthorization, gt_iff_lt]
    rw [if_pos hl]

/-- A client authorization whose name is not `userName + ":" + clientName`. -/
def authBadName : OAuthClientAuthorization :=
  ⟨⟨"user:clientx", ""⟩, "client", "user", "uid", []⟩

/-- Externals whose metadata validation reports an error. -/
def extMetaErr : Externals :=
  { extTriv with
    validateObjectMeta := fun _ _ _ _ =>
      [fieldInvalid (newPath ["metadata", "name"]) "user:clientx" "bad name"] }

/-- C6 witness: with accepting metadata validation, the mismatching name
`"user:clientx"` yields exactly the one `metadata.name` error; with failing
metadata validation, the result is the metadata errors plus the field checks
(no derived-name error). -/
theorem c6_client_authorization_derived_name_witness :
    (ValidateClientAuthorization extTriv authBadName).filter
        (fun e => decide (e.path = newPath ["metadata", "name"])) =
      [fieldInvalid (newPath ["metadata", "name"]) "user:clientx"
        "must be in the format <userName>:<clientName>"]
    ∧ ValidateClientAuthorization extMetaErr authBadName =
        [fieldInvalid (newPath ["metadata", "name"]) "user:clientx" "bad name"]
          ++ clientAuthorizationFieldErrors extMetaErr authBadName := by
  constructor
  · have h := (c6_client_authorization_derived_name extTriv authBadName).1 rfl
    rw [if_neg (by decide)] at h
    exact h
  · exact (c6_client_authorization_derived_name extMetaErr authBadName).2.1 (by decide)

/-- The segment loop rejects with one of the two dot messages whenever some
segment is `.` or `..`. -/
lemma redirectPathSegCheck_dot (l : List String) :
    ("." ∈ l ∨ ".." ∈ l) →
      redirectPathSegCheck l = (false, "may not contain a path segment of .")
        ∨ redirectPathSegCheck l = (false, "may not contain a path segment of ..") := by
  induction l with
  | nil => intro h; simp at h
  | cons s rest ih =>
    intro h
    by_cases h1 : s = "."
    · left; unfold redirectPathSegCheck; rw [if_pos h1]
    · by_cases h2 : s = ".."
      · right; unfold redirectPathSegCheck; rw [if_neg h1, if_pos h2]
      · have hrest : "." ∈ rest ∨ ".." ∈ rest := by
          rcases h with h | h
          · rcases List.mem_cons.mp h with h' | h'
            · exact absurd h'.symm h1
            · exact Or.inl h'
          · rcases List.mem_cons.mp h with h' | h'
            · exact absurd h'.symm h2
            · exact Or.inr h'
        have hres := ih hrest
        unfold redirectPathSegCheck
        rw [if_neg h1, if_neg h2]
        exact hres

/-- C9: `ValidateRedirectURI` accepts the empty string; on a parsed URI it
rejects a non-empty fragment with "may not contain a fragment", and rejects a
path containing a `.` or `..` segment with the corresponding message; in
particular `"http://x/../y"` (parsing to path `/../y`) is rejected for the
`..` segment and `"http://x#frag"` (parsing to fragment `frag`) for the
fragment. -/
theorem c9_redirect_uri_checks (parse : String → Except String ParsedURL)
    (h1 : parse "http://x/../y" = Except.ok ⟨"/../y", ""⟩)
    (h2 : parse "http://x#frag" = Except.ok ⟨"", "frag"⟩) :
    ValidateRedirectURI parse "" = (true, "")
    ∧ ValidateRedirectURI parse "http://x/../y" =
        (false, "may not contain a path segment of ..")
    ∧ ValidateRedirectURI parse "http://x#frag" = (false, "may not contain a fragment")
    ∧ (∀ (s : String) (u : ParsedURL), goLen s ≠ 0 → parse s = Except.ok u →
        goLen u.fragment ≠ 0 →
        ValidateRedirectURI parse s = (false, "may not contain a fragment"))
    ∧ (∀ (s : String) (u : ParsedURL), goLen s ≠ 0 → parse s = Except.ok u →
        goLen u.fragment = 0 → ("." ∈ goSplitSlash u.path ∨ ".." ∈ goSplitSlash u.path) →
        (ValidateRedirectURI parse s = (false, "may not contain a path segment of .")
          ∨ ValidateRedirectURI parse s = (false, "may not contain a path segment of .."))) := by
  refine ⟨rfl, ?_, ?_, ?_, ?_⟩
  · unfold ValidateRedirectURI
    rw [if_neg (by decide : ¬ (goLen "http://x/../y" = 0)), h1]
    decide
  · unfold ValidateRedirectURI
    rw [if_neg (by decide : ¬ (goLen "http://x#frag" = 0)), h2]
    decide
  · intro s u hs hp hf
    unfold ValidateRedirectURI
    rw [if_neg hs, hp]
    show (if goLen u.fragment ≠ 0 then (false, "may not contain a fragment")
      else redirectPathSegCheck (goSplitSlash u.path)) = _
    rw [if_pos hf]
  · intro s u hs hp hf hdot
    unfold ValidateRedirectURI
    rw [if_neg hs, hp]
    show (if goLen u.fragment ≠ 0 then (false, "may not contain a fragment")
      else redirectPathSegCheck (goSplitSlash u.path))
        = (false, "may not contain a path segment of .")
      ∨ (if goLen u.fragment ≠ 0 then (false, "may not contain a fragment")
        else redirectPathSegCheck (goSplitSlash u.path))
          = (false, "may not contain a path segment of ..")
    rw [if_neg (not_not_intro hf)]
    exact redirectPathSegCheck_dot _ hdot

/-- A `url.Parse` model for the two URIs of the C9 witness: `"http://x/../y"`
parses to path `/../y` with no fragment, `"http://x#frag"` to an empty path
with fragment `frag`. -/
def parseURLWitness : String → Except String ParsedURL := fun s =>
  if s = "http://x/../y" then Except.ok ⟨"/../y", ""⟩
  else if s = "http://x#frag" then Except.ok ⟨"", "frag"⟩
  else Except.error "parse error"

/-- C9 witness: the three concrete evaluations under the concrete parse
model. -/
theorem c9_redirect_uri_checks_witness :
    ValidateRedirectURI parseURLWitness "" = (true, "")
    ∧ ValidateRedirectURI parseURLWitness "http://x/../y" =
        (false, "may not contain a path segment of ..")
    ∧ ValidateRedirectURI parseURLWitness "http://x#frag" =
        (false, "may not contain a fragment") := by
  have h := c9_redirect_uri_checks parseURLWitness (by rfl) (by rfl)
  exact ⟨h.1, h.2.1, h.2.2.1⟩

/-- `ValidateClientAuthorization` is the metadata-or-derived-name stage
followed by the field checks. -/
lemma validateClientAuthorization_eq (ext : Externals) (a : OAuthClientAuthorization) :
    ValidateClientAuthorization ext a =
      (if (ext.validateObjectMeta a.objectMeta false
          (ValidateClientAuthorizationName ext.minimalNameRequirements)
          (newPath ["metadata"])).length > 0 then
        ext.validateObjectMeta a.objectMeta false
          (ValidateClientAuthorizationName ext.minimalNameRequirements) (newPath ["metadata"])
       else if a.objectMeta.name ≠ a.userName ++ ":" ++ a.clientName then
        [fieldInvalid (newPath ["metadata", "name"]) a.objectMeta.name
          "must be in the format <userName>:<clientName>"]
       else [])
        ++ clientAuthorizationFieldErrors ext a := rfl

/-- A scope index path never equals a one-key field path. -/
lemma pathIndex_scopes_ne_one_key (j : Nat) (k : String) :
    pathIndex (newPath ["scopes"]) j ≠ [PathSeg.key k] := by
  intro hcon
  have := congrArg List.length hcon
  simp [pathIndex, newPath] at this

/-- C10: a client authorization with an empty `userUID` gets exactly one
`Required` error at the lower-case path `useruid` and no error at path
`userUID`, whereas `ValidateAccessToken` and `ValidateAuthorizeToken` report
the same missing field at path `userUID` (assuming the external metadata
validation stays off both spellings of the path). -/
theorem c10_useruid_path_lowercase (ext : Externals) (a : OAuthClientAuthorization)
    (t : OAuthAccessToken) (t2 : OAuthAuthorizeToken)
    (ha : goLen a.userUID = 0)
    (hm : ∀ e ∈ ext.validateObjectMeta a.objectMeta false
        (ValidateClientAuthorizationName ext.minimalNameRequirements) (newPath ["metadata"]),
      e.path ≠ newPath ["useruid"] ∧ e.path ≠ newPath ["userUID"])
    (ht : goLen t.userUID = 0) (ht2 : goLen t2.userUID = 0) :
    (ValidateClientAuthorization ext a).filter
        (fun e => decide (e.path = newPath ["useruid"])) =
      [fieldRequired (newPath ["useruid"]) ""]
    ∧ (∀ e ∈ ValidateClientAuthorization ext a, e.path ≠ newPath ["userUID"])
    ∧ fieldRequired (newPath ["userUID"]) "" ∈ ValidateAccessToken ext t
    ∧ fieldRequired (newPath ["userUID"]) "" ∈ ValidateAuthorizeToken ext t2 := by
  have hhead : ∀ e ∈ (if (ext.validateObjectMeta a.objectMeta false
      (ValidateClientAuthorizationName ext.minimalNameRequirements)
      (newPath ["metadata"])).length > 0 then
        ext.validateObjectMeta a.objectMeta false
          (ValidateClientAuthorizationName ext.minimalNameRequirements) (newPath ["metadata"])
      else if a.objectMeta.name ≠ a.userName ++ ":" ++ a.clientName then
        [fieldInvalid (newPath ["metadata", "name"]) a.objectMeta.name
          "must be in the format <userName>:<clientName>"]
      else []),
      e.path ≠ newPath ["useruid"] ∧ e.path ≠ newPath ["userUID"] := by
    intro e he
    split at he
    · exact hm e he
    · split at he
      · simp at he
        subst he
        exact ⟨by simp [fieldInvalid, newPath], by simp [fieldInvalid, newPath]⟩
      · simp at he
  have hfield : ∀ e ∈ clientAuthorizationFieldErrors ext a,
      e.path = newPath ["useruid"] → e = fieldRequired (newPath ["useruid"]) "" := by
    intro e he hp
    unfold clientAuthorizationFieldErrors at he
    simp only [List.append_assoc, List.mem_append] at he
    rcases he with he | he | he | he
    · rw [validateClientNameField_path e he] at hp
      exact absurd hp (by decide)
    · rw [validateUserNameField_path e he] at hp
      exact absurd hp (by decide)
    · obtain ⟨j, hj⟩ := validateScopesFrom_path _ _ e he
      rw [hj] at hp
      exact absurd hp (pathIndex_scopes_ne_one_key j "useruid")
    · unfold userUIDRequired at he
      rw [if_pos ha] at he
      simpa using he
  refine ⟨?_, ?_, ?_, ?_⟩
  · rw [validateClientAuthorization_eq, List.filter_append]
    have h1 : (List.filter (fun e => decide (e.path = newPath ["useruid"]))
        (if (ext.validateObjectMeta a.objectMeta false
          (ValidateClientAuthorizationName ext.minimalNameRequirements)
          (newPath ["metadata"])).length > 0 then
            ext.validateObjectMeta a.objectMeta false
              (ValidateClientAuthorizationName ext.minimalNameRequirements) (newPath ["metadata"])
          else if a.objectMeta.name ≠ a.userName ++ ":" ++ a.clientName then
            [fieldInvalid (newPath ["metadata", "name"]) a.objectMeta.name
              "must be in the format <userName>:<clientName>"]
          else [])) = [] := by
      rw [List.filter_eq_nil_iff]
      intro e he
      simpa using (hhead e he).1
    rw [h1, List.nil_append]
    unfold clientAuthorizationFieldErrors
    simp only [List.append_assoc, List.filter_append]
    have hA : (ValidateClientNameField ext a.clientName (newPath ["clientName"])).filter
        (fun e => decide (e.path = newPath ["useruid"])) = [] := by
      rw [List.filter_eq_nil_iff]
      intro e he
      rw [validateClientNameField_path e he]
      decide
    have hB : (ValidateUserNameField ext a.userName (newPath ["userName"])).filter
        (fun e => decide (e.path = newPath ["useruid"])) = [] := by
      rw [List.filter_eq_nil_iff]
      intro e he
      rw [validateUserNameField_path e he]
      decide
    have hC : (ValidateScopes ext.scopeEvaluators a.scopes (newPath ["scopes"])).filter
        (fun e => decide (e.path = newPath ["useruid"])) = [] := by
      rw [List.filter_eq_nil_iff]
      intro e he
      obtain ⟨j, hj⟩ := validateScopesFrom_path _ _ e he
      rw [hj]
      simpa using pathIndex_scopes_ne_one_key j "useruid"
    have hD : (userUIDRequired a.userUID (newPath ["useruid"])).filter
        (fun e => decide (e.path = newPath ["useruid"])) =
        [fieldRequired (newPath ["useruid"]) ""] := by
      unfold userUIDRequired
      rw [if_pos ha]
      simp [List.filter, fieldRequired, newPath]
    rw [hA, hB, hC, hD]
    rfl
  · intro e he
    rw [validateClientAuthorization_eq, List.mem_append] at he
    rcases he with he | he
    · exact (hhead e he).2
    · rcases clientAuthorizationFieldErrors_paths ext a e he with h | h | ⟨j, h⟩ | h
      · rw [h]; decide
      · rw [h]; decide
      · rw [h]; exact pathIndex_scopes_ne_one_key j "userUID"
      · rw [h]; decide
  · unfold ValidateAccessToken
    simp only [List.append_assoc, List.mem_append]
    have : userUIDRequired t.userUID (newPath ["userUID"]) =
        [fieldRequired (newPath ["userUID"]) ""] := by
      unfold userUIDRequired
      rw [if_pos ht]
    simp [this]
  · unfold ValidateAuthorizeToken
    simp only [List.append_assoc, List.mem_append]
    have : userUIDRequired t2.userUID (newPath ["userUID"]) =
        [fieldRequired (newPath ["userUID"]) ""] := by
      unfold userUIDRequired
      rw [if_pos ht2]
    simp [this]

/-- C10 witness: the concrete client authorization with empty `userUID`
under the trivial externals, next to an access and an authorize token with
empty `userUID`. -/
theorem c10_useruid_path_lowercase_witness :
    (ValidateClientAuthorization extTriv authEmptyUID).filter
        (fun e => decide (e.path = newPath ["useruid"])) =
      [fieldRequired (newPath ["useruid"]) ""]
    ∧ (∀ e ∈ ValidateClientAuthorization extTriv authEmptyUID,
        e.path ≠ newPath ["userUID"])
    ∧ fieldRequired (newPath ["userUID"]) ""
        ∈ ValidateAccessToken extTriv { tokSpaceScope with userUID := "", scopes := [] }
    ∧ fieldRequired (newPath ["userUID"]) ""
        ∈ ValidateAuthorizeToken extTriv { authTokSpaceScope with userUID := "", scopes := [] } :=
  c10_useruid_path_lowercase extTriv authEmptyUID
    { tokSpaceScope with userUID := "", scopes := [] }
    { authTokSpaceScope with userUID := "", scopes := [] }
    (by decide) (by intro e he; simp [extTriv] at he) (by decide) (by decide)

end OAuthValidation
